import Mathlib

/-!
Shallow embedding of the CEX orderbook spread analyzer (src/src/main.cpp).

Numeric values (C++ `double`) are modelled as exact rationals `ℚ`: the
claims under study are structural and algorithmic, not about rounding.
`std::stod` is modelled by an exact decimal/hex-literal parser returning
`Option ℚ`; inputs that `stod` parses to non-finite values (`inf`, `nan`)
are rejected by the `isfinite` check in `parseDouble` and therefore map to
the same observable error as unparseable inputs, so the model's parser
returns `none` for them.  Overflow to `out_of_range` has no counterpart in
exact rationals.  Text is modelled as `List Char`.
-/

namespace OBA

/-- Side of an order, mirroring `enum class Side`. -/
inductive Side where
  | BID : Side
  | ASK : Side
deriving DecidableEq

/-- One resting order: `struct Order`. -/
structure Order where
  side : Side
  price : ℚ
  size : ℚ
deriving DecidableEq

/-- The two-sided book: `struct Orderbook`. -/
structure Orderbook where
  bids : List Order
  asks : List Order
deriving DecidableEq

/-- The analytics snapshot: `struct Stats`. -/
structure Stats where
  bestBid : ℚ
  bestAsk : ℚ
  midPrice : ℚ
  spread : ℚ
  spreadPct : ℚ
  bidDepth : ℚ
  askDepth : ℚ
  vwapBuy : ℚ
  vwapSell : ℚ
deriving DecidableEq

/-- Error taxonomy.  The C++ program signals these through exception
messages; the spec's section 7 gives them these names.  `FileOpenError` is
not modelled (the embedding takes the file's lines directly).
`InsufficientLiquidity`'s first component records whether the failing sweep
was the buy sweep (`true`, message "to buy") or the sell sweep. -/
inductive BookError where
  | MalformedRow : ℕ → BookError
  | InvalidSide : List Char → BookError
  | InvalidNumber : List Char → BookError
  | EmptySide : Side → BookError
  | CrossedBook : ℚ → ℚ → BookError
  | InsufficientLiquidity : Bool → ℚ → BookError
deriving DecidableEq

instance {ε α : Type} [DecidableEq ε] [DecidableEq α] : DecidableEq (Except ε α) := fun x y =>
  match x, y with
  | Except.ok a, Except.ok b => decidable_of_iff (a = b) (by simp)
  | Except.ok _, Except.error _ => isFalse (by simp)
  | Except.error _, Except.ok _ => isFalse (by simp)
  | Except.error e, Except.error f => decidable_of_iff (e = f) (by simp)

/-- Whitespace set of `trim`: `" \t\r\n"`. -/
def isWsChar (c : Char) : Bool :=
  c = ' ' || c = '\t' || c = '\r' || c = '\n'

/-- `trim`: drop leading and trailing characters from `" \t\r\n"`, exactly
`find_first_not_of` / `find_last_not_of` followed by `substr`. -/
def trim (s : List Char) : List Char :=
  ((s.dropWhile isWsChar).reverse.dropWhile isWsChar).reverse

/-- ASCII lower-casing, the effect of `::tolower` on the ASCII inputs this
program deals with. -/
def lowerChar (c : Char) : Char :=
  if 'A' ≤ c ∧ c ≤ 'Z' then Char.ofNat (c.toNat + 32) else c

/-- `parseSide`: lowercase, then compare with "bid" / "ask". -/
def parseSide (raw : List Char) : Except BookError Side :=
  let s := raw.map lowerChar
  if s = ("bid".toList) then Except.ok Side.BID
  else if s = ("ask".toList) then Except.ok Side.ASK
  else Except.error (BookError.InvalidSide raw)

/-- Whitespace set skipped by `strtod` (`isspace` in the C locale). -/
def isStodSpace (c : Char) : Bool :=
  c = ' ' || c = '\t' || c = '\n' || c = '\x0b' || c = '\x0c' || c = '\r'

def isDigitChar (c : Char) : Bool :=
  '0' ≤ c && c ≤ '9'

def isHexDigitChar (c : Char) : Bool :=
  ('0' ≤ c && c ≤ '9') || ('a' ≤ c && c ≤ 'f') || ('A' ≤ c && c ≤ 'F')

/-- Value of a decimal digit run, most significant first. -/
def digitsVal (l : List Char) : ℕ :=
  l.foldl (fun n c => 10 * n + (c.toNat - 48)) 0

def hexDigitVal (c : Char) : ℕ :=
  if c ≤ '9' then c.toNat - 48 else if c ≤ 'F' then c.toNat - 55 else c.toNat - 87

def hexDigitsVal (l : List Char) : ℕ :=
  l.foldl (fun n c => 16 * n + hexDigitVal c) 0

/-- Decimal exponent part of `strtod` (`e`/`E`, optional sign, digits); if
no digit follows, the exponent is not part of the converted prefix and the
value stands, i.e. the exponent is 0. -/
def decExpFrom (l : List Char) : ℤ :=
  match l with
  | [] => 0
  | c :: rest =>
    if c = 'e' ∨ c = 'E' then
      match rest with
      | '-' :: ds =>
        let dd := ds.takeWhile isDigitChar
        if dd = [] then 0 else -(digitsVal dd : ℤ)
      | '+' :: ds =>
        let dd := ds.takeWhile isDigitChar
        if dd = [] then 0 else (digitsVal dd : ℤ)
      | ds =>
        let dd := ds.takeWhile isDigitChar
        if dd = [] then 0 else (digitsVal dd : ℤ)
    else 0

/-- Binary exponent part of a hex float (`p`/`P`, optional sign, digits). -/
def binExpFrom (l : List Char) : ℤ :=
  match l with
  | [] => 0
  | c :: rest =>
    if c = 'p' ∨ c = 'P' then
      match rest with
      | '-' :: ds =>
        let dd := ds.takeWhile isDigitChar
        if dd = [] then 0 else -(digitsVal dd : ℤ)
      | '+' :: ds =>
        let dd := ds.takeWhile isDigitChar
        if dd = [] then 0 else (digitsVal dd : ℤ)
      | ds =>
        let dd := ds.takeWhile isDigitChar
        if dd = [] then 0 else (digitsVal dd : ℤ)
    else 0

/-- Scale a rational by an integer power of a positive base. -/
def scalePow (base : ℚ) (m : ℚ) : ℤ → ℚ
  | Int.ofNat k => m * base ^ k
  | Int.negSucc k => m / base ^ (k + 1)

/-- Decimal mantissa with optional fractional part; returns the value and
the rest of the input, or `none` when no digit was consumed. -/
def decMant (l : List Char) : Option (ℚ × List Char) :=
  let ip := l.takeWhile isDigitChar
  let l2 := l.dropWhile isDigitChar
  let (fp, l3) :=
    match l2 with
    | '.' :: r => (r.takeWhile isDigitChar, r.dropWhile isDigitChar)
    | _ => ([], l2)
  if ip = [] ∧ fp = [] then none
  else some ((digitsVal (ip ++ fp) : ℚ) / (10 : ℚ) ^ fp.length, l3)

/-- Hex mantissa after "0x", same shape as `decMant` with base 16. -/
def hexMant (l : List Char) : Option (ℚ × List Char) :=
  let ip := l.takeWhile isHexDigitChar
  let l2 := l.dropWhile isHexDigitChar
  let (fp, l3) :=
    match l2 with
    | '.' :: r => (r.takeWhile isHexDigitChar, r.dropWhile isHexDigitChar)
    | _ => ([], l2)
  if ip = [] ∧ fp = [] then none
  else some ((hexDigitsVal (ip ++ fp) : ℚ) / (16 : ℚ) ^ fp.length, l3)

/-- Model of `std::stod` restricted to finite results: skip whitespace,
optional sign, then a decimal constant with optional exponent or a hex
float.  Trailing characters beyond the converted prefix are ignored, as
`stod` ignores them.  `none` means no conversion could be performed, or the
result is non-finite (`inf`/`nan` spellings). -/
def parseFiniteQ (raw : List Char) : Option ℚ :=
  let l := raw.dropWhile isStodSpace
  let (neg, l1) :=
    match l with
    | '-' :: r => (true, r)
    | '+' :: r => (false, r)
    | _ => (false, l)
  let v? :=
    match l1 with
    | '0' :: x :: rest =>
      if x = 'x' ∨ x = 'X' then
        match hexMant rest with
        | some (m, l3) => some (scalePow 2 m (binExpFrom l3))
        | none => some 0
      else
        match decMant l1 with
        | some (m, l3) => some (scalePow 10 m (decExpFrom l3))
        | none => none
    | _ =>
      match decMant l1 with
      | some (m, l3) => some (scalePow 10 m (decExpFrom l3))
      | none => none
  match v? with
  | none => none
  | some v => some (if neg then -v else v)

/-- `parseDouble`: `stod` plus the `isfinite`/positivity check; any failure
in the `try` block becomes `InvalidNumber(fieldName)`. -/
def parseDouble (raw : List Char) (fieldName : List Char) : Except BookError ℚ :=
  match parseFiniteQ raw with
  | none => Except.error (BookError.InvalidNumber fieldName)
  | some v =>
    if v ≤ 0 then Except.error (BookError.InvalidNumber fieldName)
    else Except.ok v

/-- Split on commas, mirroring repeated `std::getline(ss, field, ',')`:
a field is the run of characters before the next comma or end of input;
a `getline` that finds no characters leaves the empty string. -/
def splitOnComma : List Char → List (List Char)
  | [] => [[]]
  | c :: rest =>
    if c = ',' then [] :: splitOnComma rest
    else
      match splitOnComma rest with
      | [] => [[c]]
      | f :: fs => (c :: f) :: fs

/-- Body of `parseRow` once the three `getline` results are in hand. -/
def parseFields (fields : List (List Char)) (lineNumber : ℕ) : Except BookError Order :=
  let sideStr := fields.getD 0 []
  let priceStr := fields.getD 1 []
  let sizeStr := fields.getD 2 []
  if trim sideStr = [] ∨ trim priceStr = [] ∨ trim sizeStr = [] then
    Except.error (BookError.MalformedRow lineNumber)
  else
    match parseSide (trim sideStr) with
    | Except.error e => Except.error e
    | Except.ok side =>
      match parseDouble (trim priceStr) ("price".toList) with
      | Except.error e => Except.error e
      | Except.ok price =>
        match parseDouble (trim sizeStr) ("size".toList) with
        | Except.error e => Except.error e
        | Except.ok size => Except.ok ⟨side, price, size⟩

/-- `parseRow`: split the line, take the first three fields (missing
`getline`s leave empty strings, extra fields are never read). -/
def parseRow (line : List Char) (lineNumber : ℕ) : Except BookError Order :=
  parseFields (splitOnComma line) lineNumber

/-- The main loop of `loadCSV`: parse each non-blank data line, failing on
the first bad row.  `n` is the 1-based line number of the first line of the
list (the header is line 1, so the loop starts at 2). -/
def parseLines : List (List Char) → ℕ → Except BookError (List Order)
  | [], _ => Except.ok []
  | l :: rest, n =>
    if trim l = [] then parseLines rest (n + 1)
    else
      match parseRow l n with
      | Except.error e => Except.error e
      | Except.ok o =>
        match parseLines rest (n + 1) with
        | Except.error e => Except.error e
        | Except.ok os => Except.ok (o :: os)

/-- Bid comparator: `std::sort` with `a.price > b.price` arranges the bids
so that consecutive elements satisfy `b.price ≤ a.price` (descending). -/
def bidLE (a b : Order) : Prop := b.price ≤ a.price

/-- Ask comparator: `std::sort` with `a.price < b.price` arranges the asks
ascending. -/
def askLE (a b : Order) : Prop := a.price ≤ b.price

instance : DecidableRel bidLE := fun a b => inferInstanceAs (Decidable (b.price ≤ a.price))

instance : DecidableRel askLE := fun a b => inferInstanceAs (Decidable (a.price ≤ b.price))

instance : IsTotal Order bidLE := ⟨fun a b => le_total b.price a.price⟩

instance : IsTrans Order bidLE := ⟨fun _ _ _ h1 h2 => le_trans h2 h1⟩

instance : IsTotal Order askLE := ⟨fun a b => le_total a.price b.price⟩

instance : IsTrans Order askLE := ⟨fun _ _ _ h1 h2 => le_trans h1 h2⟩

/-- Placeholder used only with `List.headD` on lists already known to be
nonempty. -/
def defaultOrder : Order := ⟨Side.BID, 0, 0⟩

/-- `loadCSV`, taking the file's lines (the filesystem open is outside the
model; `FileOpenError` is unreachable here).  The first line is the header
and is discarded; on an empty file the read loop never runs and the
empty-bids check fires.  Orders are bucketed by side in parse order (the
`else` branch of the C++ puts every non-BID order on the ask side), then
each side is sorted — `std::sort`'s tie order is unspecified, modelled here
by insertion sort, one valid refinement — and a crossed book is rejected. -/
def bidsOf (orders : List Order) : List Order :=
  orders.filter (fun o => o.side == Side.BID)

/-- Ask-side bucket: the `else` branch of the C++ loop, i.e. every order
whose side is not BID. -/
def asksOf (orders : List Order) : List Order :=
  orders.filter (fun o => !(o.side == Side.BID))

def loadCSV (lines : List (List Char)) : Except BookError Orderbook :=
  match lines with
  | [] => Except.error (BookError.EmptySide Side.BID)
  | _header :: dataLines =>
    match parseLines dataLines 2 with
    | Except.error e => Except.error e
    | Except.ok orders =>
      if (bidsOf orders).isEmpty then Except.error (BookError.EmptySide Side.BID)
      else if (asksOf orders).isEmpty then Except.error (BookError.EmptySide Side.ASK)
      else
        let sortedBids := (bidsOf orders).insertionSort bidLE
        let sortedAsks := (asksOf orders).insertionSort askLE
        let bestBid := (sortedBids.headD defaultOrder).price
        let bestAsk := (sortedAsks.headD defaultOrder).price
        if bestBid ≥ bestAsk then Except.error (BookError.CrossedBook bestBid bestAsk)
        else Except.ok ⟨sortedBids, sortedAsks⟩

/-- `calcDepth`: accumulate the size of every order whose price lies in the
closed band. -/
def calcDepth (orders : List Order) (minPrice maxPrice : ℚ) : ℚ :=
  orders.foldl
    (fun total o => if minPrice ≤ o.price ∧ o.price ≤ maxPrice then total + o.size else total) 0

/-- The level walk shared by `calcVWAPBuy` and `calcVWAPSell`: returns the
final `remaining` and the accumulated cost.  The `remaining ≤ 0` test is
the loop's `break`. -/
def sweep : List Order → ℚ → ℚ → ℚ × ℚ
  | [], remaining, acc => (remaining, acc)
  | o :: rest, remaining, acc =>
    if remaining ≤ 0 then (remaining, acc)
    else sweep rest (remaining - min remaining o.size) (acc + min remaining o.size * o.price)

/-- `calcVWAPBuy`: walk the asks, fail if liquidity runs out, else divide
the accumulated cost by the target quantity. -/
def calcVWAPBuy (asks : List Order) (targetQty : ℚ) : Except BookError ℚ :=
  let r := sweep asks targetQty 0
  if r.1 > 0 then Except.error (BookError.InsufficientLiquidity true targetQty)
  else Except.ok (r.2 / targetQty)

/-- `calcVWAPSell`: identical walk over the bids. -/
def calcVWAPSell (bids : List Order) (targetQty : ℚ) : Except BookError ℚ :=
  let r := sweep bids targetQty 0
  if r.1 > 0 then Except.error (BookError.InsufficientLiquidity false targetQty)
  else Except.ok (r.2 / targetQty)

/-- `calcStats`: derive the snapshot from the book; a failing sweep aborts
the whole computation (the C++ exception propagates out of `calcStats`). -/
def calcStats (book : Orderbook) (depthPct targetQty : ℚ) : Except BookError Stats :=
  let bestBid := (book.bids.headD defaultOrder).price
  let bestAsk := (book.asks.headD defaultOrder).price
  let midPrice := (bestBid + bestAsk) / 2
  let spread := bestAsk - bestBid
  let spreadPct := spread / midPrice * 100
  let lower := midPrice * (1 - depthPct / 100)
  let upper := midPrice * (1 + depthPct / 100)
  match calcVWAPBuy book.asks targetQty with
  | Except.error e => Except.error e
  | Except.ok vb =>
    match calcVWAPSell book.bids targetQty with
    | Except.error e => Except.error e
    | Except.ok vs =>
      Except.ok
        ⟨bestBid, bestAsk, midPrice, spread, spreadPct,
         calcDepth book.bids lower upper, calcDepth book.asks lower upper, vb, vs⟩

/-- Total resting size of a list of levels. -/
def totalSize (levels : List Order) : ℚ :=
  (levels.map Order.size).sum

/-- Specification-side cost of a sweep, stated without the loop's mutable
`remaining`: the fill at a level is its size clamped by what is left of the
target after the cumulative size `p` of all earlier levels. -/
def specCostFrom (targetQty : ℚ) : List Order → ℚ → ℚ
  | [], _ => 0
  | o :: rest, p =>
    min o.size (max 0 (targetQty - p)) * o.price + specCostFrom targetQty rest (p + o.size)

/-- Whether a field's text is rejected by the numeric validation: not
parseable as a finite number, or parseable but nonpositive. -/
def badNumber (s : List Char) : Bool :=
  match parseFiniteQ s with
  | none => true
  | some v => decide (v ≤ 0)

/-! Helper lemmas shared by the claim theorems. -/

lemma calcDepth_go (lo hi : ℚ) :
    ∀ (orders : List Order) (acc : ℚ),
      orders.foldl
        (fun total o => if lo ≤ o.price ∧ o.price ≤ hi then total + o.size else total) acc
      = acc + ((orders.filter (fun o => decide (lo ≤ o.price ∧ o.price ≤ hi))).map
          Order.size).sum
  | [], acc => by simp
  | o :: rest, acc => by
    by_cases h : lo ≤ o.price ∧ o.price ≤ hi
    · rw [List.foldl_cons, if_pos h, calcDepth_go lo hi rest (acc + o.size),
        List.filter_cons, if_pos (by simpa using h)]
      simp [add_assoc]
    · rw [List.foldl_cons, if_neg h, calcDepth_go lo hi rest acc,
        List.filter_cons, if_neg (by simpa using h)]

lemma calcDepth_eq_sum (orders : List Order) (lo hi : ℚ) :
    calcDepth orders lo hi
      = ((orders.filter (fun o => decide (lo ≤ o.price ∧ o.price ≤ hi))).map
          Order.size).sum := by
  rw [calcDepth, calcDepth_go, zero_add]

/-- C5: `calcDepth orders lo hi` equals the sum of `size` over exactly the
orders whose price lies in the closed interval `[lo, hi]`; it is a total
function, and when no order's price lies in the band — in particular on the
empty list — it returns 0. -/
theorem calcDepth_band_sum (orders : List Order) (lo hi : ℚ) :
    calcDepth orders lo hi
      = ((orders.filter (fun o => decide (lo ≤ o.price ∧ o.price ≤ hi))).map
          Order.size).sum ∧
    calcDepth ([] : List Order) lo hi = 0 ∧
    ((∀ o ∈ orders, ¬(lo ≤ o.price ∧ o.price ≤ hi)) → calcDepth orders lo hi = 0) := by
  refine ⟨calcDepth_eq_sum orders lo hi, rfl, fun h => ?_⟩
  rw [calcDepth_eq_sum]
  have hnil : orders.filter (fun o => decide (lo ≤ o.price ∧ o.price ≤ hi)) = [] := by
    rw [List.filter_eq_nil_iff]
    intro o ho
    simpa using h o ho
  rw [hnil]
  simp

theorem calcDepth_band_sum_witness :
    calcDepth [⟨Side.BID, 5, 2⟩] 10 20 = 0 ∧ calcDepth [⟨Side.BID, 15, 2⟩] 10 20 = 2 := by
  constructor
  · exact (calcDepth_band_sum [⟨Side.BID, 5, 2⟩] 10 20).2.2 (by decide)
  · rw [(calcDepth_band_sum [⟨Side.BID, 15, 2⟩] 10 20).1]
    norm_num [List.filter_cons, List.filter_nil]

/-- C6: depth aggregation is monotonic in the band: widening the closed
interval never decreases the returned depth.  Order sizes are nonnegative,
as the data model guarantees for every parsed order. -/
theorem calcDepth_monotone (orders : List Order) (lo hi lo2 hi2 : ℚ)
    (hsz : ∀ o ∈ orders, 0 ≤ o.size) (hlo : lo2 ≤ lo) (hhi : hi ≤ hi2) :
    calcDepth orders lo hi ≤ calcDepth orders lo2 hi2 := by
  rw [calcDepth_eq_sum, calcDepth_eq_sum]
  induction orders with
  | nil => simp
  | cons o rest ih =>
    have hso : 0 ≤ o.size := hsz o (List.mem_cons_self o rest)
    have ihr := ih (fun x hx => hsz x (List.mem_cons_of_mem o hx))
    rw [List.filter_cons, List.filter_cons]
    by_cases h : lo ≤ o.price ∧ o.price ≤ hi
    · have h2 : lo2 ≤ o.price ∧ o.price ≤ hi2 := ⟨le_trans hlo h.1, le_trans h.2 hhi⟩
      rw [if_pos (by simpa using h), if_pos (by simpa using h2)]
      simpa using add_le_add_left ihr o.size
    · rw [if_neg (by simpa using h)]
      by_cases h2 : lo2 ≤ o.price ∧ o.price ≤ hi2
      · rw [if_pos (by simpa using h2)]
        simp only [List.map_cons, List.sum_cons]
        exact le_trans ihr (le_add_of_nonneg_left hso)
      · rw [if_neg (by simpa using h2)]
        exact ihr

lemma totalSize_cons (o : Order) (rest : List Order) :
    totalSize (o :: rest) = o.size + totalSize rest := by
  simp [totalSize]

lemma totalSize_nonneg (levels : List Order) (h : ∀ o ∈ levels, 0 ≤ o.size) :
    0 ≤ totalSize levels := by
  induction levels with
  | nil => simp [totalSize]
  | cons o rest ih =>
    have hso : 0 ≤ o.size := h o (List.mem_cons_self o rest)
    have ihr := ih (fun x hx => h x (List.mem_cons_of_mem o hx))
    rw [totalSize_cons]
    linarith

lemma specCostFrom_of_le (t : ℚ) :
    ∀ (levels : List Order) (p : ℚ), (∀ o ∈ levels, 0 ≤ o.size) → t ≤ p →
      specCostFrom t levels p = 0
  | [], _, _, _ => rfl
  | o :: rest, p, hsz, hle => by
    have hso : 0 ≤ o.size := hsz o (List.mem_cons_self o rest)
    rw [specCostFrom,
      specCostFrom_of_le t rest (p + o.size)
        (fun x hx => hsz x (List.mem_cons_of_mem o hx)) (by linarith),
      max_eq_left (by linarith), min_eq_right hso]
    ring

lemma sweep_eq_spec :
    ∀ (levels : List Order) (r p acc : ℚ), 0 ≤ r → (∀ o ∈ levels, 0 ≤ o.size) →
      sweep levels r acc
        = (max 0 (r - totalSize levels), acc + specCostFrom (r + p) levels p)
  | [], r, p, acc, hr, _ => by
    simp [sweep, totalSize, specCostFrom, max_eq_right hr]
  | o :: rest, r, p, acc, hr, hsz => by
    have hso : 0 ≤ o.size := hsz o (List.mem_cons_self o rest)
    have hszr : ∀ x ∈ rest, 0 ≤ x.size := fun x hx => hsz x (List.mem_cons_of_mem o hx)
    have hTr : 0 ≤ totalSize rest := totalSize_nonneg rest hszr
    rw [sweep]
    by_cases hr0 : r ≤ 0
    · have hreq : r = 0 := le_antisymm hr0 hr
      subst hreq
      rw [if_pos le_rfl, max_eq_left (by rw [totalSize_cons]; linarith),
        specCostFrom_of_le _ _ _ hsz (by linarith), add_zero]
    · have hrpos : 0 < r := lt_of_not_le hr0
      rw [if_neg hr0]
      have hmin : min r o.size ≤ r := min_le_left r o.size
      rw [sweep_eq_spec rest (r - min r o.size) (p + o.size)
        (acc + min r o.size * o.price) (by linarith) hszr]
      rw [Prod.mk.injEq]
      constructor
      · by_cases hs : o.size ≤ r
        · rw [min_eq_right hs, totalSize_cons]
          ring_nf
        · rw [min_eq_left (le_of_lt (lt_of_not_le hs))]
          rw [max_eq_left (by linarith), max_eq_left (by rw [totalSize_cons]; linarith)]
      · rw [specCostFrom]
        have harg : r + p - p = r := by ring
        rw [harg, max_eq_right hr, min_comm o.size r]
        by_cases hs : o.size ≤ r
        · have : r - min r o.size + (p + o.size) = r + p := by
            rw [min_eq_right hs]; ring
          rw [this]
          ring
        · have hrs : r ≤ o.size := le_of_lt (lt_of_not_le hs)
          rw [min_eq_left hrs]
          rw [specCostFrom_of_le _ _ _ hszr (by linarith),
            specCostFrom_of_le _ _ _ hszr (by linarith)]
          ring

/-- C2: for levels in best-first order and a positive target at most the
total resting size, the sweep fills `min(remaining, size)` at each level
(equivalently: each level's fill is its size clamped by what remains of the
target after all earlier levels), stops when the target is exhausted, and
returns the accumulated `fill * price` divided by the target; on the spec's
example book the buy sweep for 10 returns 101.2 and the sell sweep for 12
returns (10*100 + 2*99)/12. -/
theorem vwap_sweep_correct (levels : List Order) (targetQty : ℚ)
    (hq : 0 < targetQty) (hle : targetQty ≤ totalSize levels)
    (hsz : ∀ o ∈ levels, 0 ≤ o.size) :
    calcVWAPBuy levels targetQty
        = Except.ok (specCostFrom targetQty levels 0 / targetQty) ∧
    calcVWAPSell levels targetQty
        = Except.ok (specCostFrom targetQty levels 0 / targetQty) ∧
    calcVWAPBuy [⟨Side.ASK, 101, 8⟩, ⟨Side.ASK, 102, 10⟩] 10 = Except.ok (506 / 5) ∧
    calcVWAPSell [⟨Side.BID, 100, 10⟩, ⟨Side.BID, 99, 5⟩] 12 = Except.ok (599 / 6) := by
  have hkey := sweep_eq_spec levels targetQty 0 0 (le_of_lt hq) hsz
  have hrem : max 0 (targetQty - totalSize levels) = 0 := max_eq_left (by linarith)
  rw [hrem, add_zero, zero_add] at hkey
  refine ⟨?_, ?_, ?_, ?_⟩
  · simp only [calcVWAPBuy]; rw [hkey]
    simp
  · simp only [calcVWAPSell]; rw [hkey]
    simp
  · norm_num [calcVWAPBuy, sweep, min_def]
  · norm_num [calcVWAPSell, sweep, min_def]

theorem vwap_sweep_correct_witness :
    calcVWAPBuy [⟨Side.ASK, 101, 8⟩, ⟨Side.ASK, 102, 10⟩] 10
        = Except.ok (specCostFrom 10 [⟨Side.ASK, 101, 8⟩, ⟨Side.ASK, 102, 10⟩] 0 / 10) ∧
    calcVWAPBuy [⟨Side.ASK, 101, 8⟩, ⟨Side.ASK, 102, 10⟩] 10 = Except.ok (506 / 5) :=
  have h := vwap_sweep_correct [⟨Side.ASK, 101, 8⟩, ⟨Side.ASK, 102, 10⟩] 10
    (by norm_num) (by norm_num [totalSize]) (by norm_num)
  ⟨h.1, h.2.2.1⟩

/-- C3: for every list of levels with (data-model) nonnegative sizes and
every positive target, the sweep fails with `InsufficientLiquidity` exactly
when the target strictly exceeds the total resting size; on failure it
produces no result, and otherwise it succeeds. -/
theorem vwap_insufficient_iff (levels : List Order) (targetQty : ℚ)
    (hq : 0 < targetQty) (hsz : ∀ o ∈ levels, 0 ≤ o.size) :
    (calcVWAPBuy levels targetQty
        = Except.error (BookError.InsufficientLiquidity true targetQty)
      ↔ totalSize levels < targetQty) ∧
    (calcVWAPSell levels targetQty
        = Except.error (BookError.InsufficientLiquidity false targetQty)
      ↔ totalSize levels < targetQty) ∧
    (totalSize levels < targetQty → ∀ v,
      calcVWAPBuy levels targetQty ≠ Except.ok v ∧
      calcVWAPSell levels targetQty ≠ Except.ok v) ∧
    (targetQty ≤ totalSize levels →
      (∃ v, calcVWAPBuy levels targetQty = Except.ok v) ∧
      (∃ v, calcVWAPSell levels targetQty = Except.ok v)) := by
  have hkey := sweep_eq_spec levels targetQty 0 0 (le_of_lt hq) hsz
  by_cases hlt : totalSize levels < targetQty
  · have hrem : max 0 (targetQty - totalSize levels) = targetQty - totalSize levels :=
      max_eq_right (by linarith)
    rw [hrem] at hkey
    have hpos : targetQty - totalSize levels > 0 := by linarith
    refine ⟨?_, ?_, ?_, ?_⟩
    · simp only [calcVWAPBuy]; rw [hkey]
      simp [hpos, hlt]
    · simp only [calcVWAPSell]; rw [hkey]
      simp [hpos, hlt]
    · intro _ v
      constructor
      · simp only [calcVWAPBuy]; rw [hkey]
        simp [hpos]
      · simp only [calcVWAPSell]; rw [hkey]
        simp [hpos]
    · intro hc
      linarith
  · have hrem : max 0 (targetQty - totalSize levels) = 0 := max_eq_left (by linarith)
    rw [hrem, add_zero, zero_add] at hkey
    refine ⟨?_, ?_, ?_, ?_⟩
    · simp only [calcVWAPBuy]; rw [hkey]
      simp [hlt]
    · simp only [calcVWAPSell]; rw [hkey]
      simp [hlt]
    · intro hc
      exact absurd hc hlt
    · intro _
      constructor
      · refine ⟨specCostFrom targetQty levels 0 / targetQty, ?_⟩
        simp only [calcVWAPBuy]; rw [hkey]; simp
      · refine ⟨specCostFrom targetQty levels 0 / targetQty, ?_⟩
        simp only [calcVWAPSell]; rw [hkey]; simp

theorem vwap_insufficient_iff_witness :
    (calcVWAPBuy [⟨Side.ASK, 101, 8⟩] 10
        = Except.error (BookError.InsufficientLiquidity true 10)
      ↔ totalSize [⟨Side.ASK, 101, 8⟩] < 10) ∧
    totalSize [⟨Side.ASK, 101, 8⟩] < 10 :=
  have h := vwap_insufficient_iff [⟨Side.ASK, 101, 8⟩] 10 (by norm_num) (by norm_num)
  ⟨h.1, by norm_num [totalSize]⟩

lemma parseLines_nil (n : ℕ) : parseLines [] n = Except.ok [] := rfl

lemma parseLines_cons_ok (l : List Char) (rest : List (List Char)) (n : ℕ) (o : Order)
    (os : List Order) (ht : trim l ≠ []) (hr : parseRow l n = Except.ok o)
    (hrest : parseLines rest (n + 1) = Except.ok os) :
    parseLines (l :: rest) n = Except.ok (o :: os) := by
  simp only [parseLines]
  rw [if_neg ht, hr, hrest]

lemma insertionSort_ne_nil (r : Order → Order → Prop) [DecidableRel r] (l : List Order)
    (h : l ≠ []) : l.insertionSort r ≠ [] := by
  intro he
  apply h
  have hlen := List.length_insertionSort r l
  rw [he] at hlen
  exact List.length_eq_zero.mp hlen.symm

/-- C1 (amended): every successfully loaded book has its bids sorted
descending by price and its asks ascending — non-strictly: orders at equal
prices may sit adjacent, since the loader accepts several orders at one
price on a side — both sides nonempty, and the first bid's price strictly
below the first ask's price; and whenever the pipeline reaches sorting
(rows parsed, both sides nonempty) with sorted best bid ≥ best ask, loading
fails with `CrossedBook(bestBid, bestAsk)`. -/
theorem loadCSV_invariants (lines : List (List Char)) :
    (∀ book, loadCSV lines = Except.ok book →
      List.Sorted bidLE book.bids ∧ List.Sorted askLE book.asks ∧
      book.bids ≠ [] ∧ book.asks ≠ [] ∧
      (book.bids.headD defaultOrder).price < (book.asks.headD defaultOrder).price) ∧
    (∀ header dls orders, lines = header :: dls →
      parseLines dls 2 = Except.ok orders →
      bidsOf orders ≠ [] → asksOf orders ≠ [] →
      (((asksOf orders).insertionSort askLE).headD defaultOrder).price
          ≤ (((bidsOf orders).insertionSort bidLE).headD defaultOrder).price →
      loadCSV lines = Except.error (BookError.CrossedBook
        ((((bidsOf orders).insertionSort bidLE).headD defaultOrder).price)
        ((((asksOf orders).insertionSort askLE).headD defaultOrder).price))) := by
  constructor
  · intro book h
    cases lines with
    | nil => simp [loadCSV] at h
    | cons header dls =>
      simp only [loadCSV] at h
      cases hp : parseLines dls 2 with
      | error e => rw [hp] at h; cases h
      | ok orders =>
        rw [hp] at h
        dsimp only at h
        by_cases hbe : (bidsOf orders).isEmpty
        · rw [if_pos hbe] at h; cases h
        · rw [if_neg hbe] at h
          by_cases hae : (asksOf orders).isEmpty
          · rw [if_pos hae] at h; cases h
          · rw [if_neg hae] at h
            by_cases hcross :
                ((((bidsOf orders).insertionSort bidLE).headD defaultOrder).price
                  ≥ (((asksOf orders).insertionSort askLE).headD defaultOrder).price)
            · rw [if_pos hcross] at h; cases h
            · rw [if_neg hcross] at h
              cases h
              refine ⟨List.sorted_insertionSort bidLE (bidsOf orders),
                List.sorted_insertionSort askLE (asksOf orders), ?_, ?_, ?_⟩
              · exact insertionSort_ne_nil bidLE (bidsOf orders)
                  (by simpa using (Bool.not_eq_true _).mp hbe)
              · exact insertionSort_ne_nil askLE (asksOf orders)
                  (by simpa using (Bool.not_eq_true _).mp hae)
              · exact lt_of_not_ge hcross
  · intro header dls orders hl hp hb ha hcross
    subst hl
    simp only [loadCSV]
    rw [hp]
    dsimp only
    rw [if_neg (by simpa using hb), if_neg (by simpa using ha),
      if_pos (by exact hcross)]

theorem loadCSV_invariants_witness :
    (loadCSV [("side,price,size".toList), ("bid,100.0,10".toList), ("ask,101.0,8".toList)]
        = Except.ok ⟨[⟨Side.BID, 100, 10⟩], [⟨Side.ASK, 101, 8⟩]⟩ →
      List.Sorted bidLE [(⟨Side.BID, 100, 10⟩ : Order)]) ∧
    loadCSV [("side,price,size".toList), ("bid,105.0,5".toList), ("ask,100.0,5".toList)]
      = Except.error (BookError.CrossedBook 105 100) := by
  have h1 := (loadCSV_invariants
    [("side,price,size".toList), ("bid,100.0,10".toList), ("ask,101.0,8".toList)]).1
  have h2 := (loadCSV_invariants
    [("side,price,size".toList), ("bid,105.0,5".toList), ("ask,100.0,5".toList)]).2
  constructor
  · intro hok
    exact (h1 ⟨[⟨Side.BID, 100, 10⟩], [⟨Side.ASK, 101, 8⟩]⟩ hok).1
  · have hrow1 : parseRow ("bid,105.0,5".toList) 2 = Except.ok ⟨Side.BID, 105, 5⟩ := by
      simp [parseRow, parseFields, splitOnComma, trim, parseSide, parseDouble,
        parseFiniteQ, decMant, scalePow, decExpFrom, digitsVal, isDigitChar,
        isStodSpace, isWsChar, lowerChar, String.toList]
      norm_num
    have hrow2 : parseRow ("ask,100.0,5".toList) 3 = Except.ok ⟨Side.ASK, 100, 5⟩ := by
      simp [parseRow, parseFields, splitOnComma, trim, parseSide, parseDouble,
        parseFiniteQ, decMant, scalePow, decExpFrom, digitsVal, isDigitChar,
        isStodSpace, isWsChar, lowerChar, String.toList]
      norm_num
    have hp : parseLines [("bid,105.0,5".toList), ("ask,100.0,5".toList)] 2
        = Except.ok [⟨Side.BID, 105, 5⟩, ⟨Side.ASK, 100, 5⟩] :=
      parseLines_cons_ok _ _ _ _ _ (by decide) hrow1
        (parseLines_cons_ok _ _ _ _ _ (by decide) hrow2 (parseLines_nil 4))
    have := h2 ("side,price,size".toList) _ _ rfl hp
      (by decide) (by decide) (by decide)
    rw [this]
    decide

/-- C1 as stated is false: a file with two bids at the same price loads
successfully, yet its bids are not sorted strictly descending by price. -/
theorem loadCSV_strict_sort_cex :
    loadCSV [("side,price,size".toList), ("bid,100,5".toList), ("bid,100,3".toList),
        ("ask,101,2".toList)]
      = Except.ok ⟨[⟨Side.BID, 100, 5⟩, ⟨Side.BID, 100, 3⟩], [⟨Side.ASK, 101, 2⟩]⟩ ∧
    ¬ List.Sorted (fun a b : Order => b.price < a.price)
        [(⟨Side.BID, 100, 5⟩ : Order), ⟨Side.BID, 100, 3⟩] := by
  constructor
  · have hrow1 : parseRow ("bid,100,5".toList) 2 = Except.ok ⟨Side.BID, 100, 5⟩ := by
      simp [parseRow, parseFields, splitOnComma, trim, parseSide, parseDouble,
        parseFiniteQ, decMant, scalePow, decExpFrom, digitsVal, isDigitChar,
        isStodSpace, isWsChar, lowerChar, String.toList]
      norm_num
    have hrow2 : parseRow ("bid,100,3".toList) 3 = Except.ok ⟨Side.BID, 100, 3⟩ := by
      simp [parseRow, parseFields, splitOnComma, trim, parseSide, parseDouble,
        parseFiniteQ, decMant, scalePow, decExpFrom, digitsVal, isDigitChar,
        isStodSpace, isWsChar, lowerChar, String.toList]
      norm_num
    have hrow3 : parseRow ("ask,101,2".toList) 4 = Except.ok ⟨Side.ASK, 101, 2⟩ := by
      simp [parseRow, parseFields, splitOnComma, trim, parseSide, parseDouble,
        parseFiniteQ, decMant, scalePow, decExpFrom, digitsVal, isDigitChar,
        isStodSpace, isWsChar, lowerChar, String.toList]
      norm_num
    have hp : parseLines [("bid,100,5".toList), ("bid,100,3".toList), ("ask,101,2".toList)] 2
        = Except.ok [⟨Side.BID, 100, 5⟩, ⟨Side.BID, 100, 3⟩, ⟨Side.ASK, 101, 2⟩] :=
      parseLines_cons_ok _ _ _ _ _ (by decide) hrow1
        (parseLines_cons_ok _ _ _ _ _ (by decide) hrow2
          (parseLines_cons_ok _ _ _ _ _ (by decide) hrow3 (parseLines_nil 5)))
    simp only [loadCSV]
    rw [hp]
    decide
  · simp [List.Sorted]

/-- C9: a successful load neither drops, duplicates, nor alters orders: the
returned book's bids and asks together are a permutation of the orders
parsed from the non-blank data rows, every order in `bids` is bid-side and
every order in `asks` is ask-side. -/
theorem loadCSV_preserves_orders
    (header : List Char) (dls : List (List Char)) (orders : List Order) (book : Orderbook)
    (hp : parseLines dls 2 = Except.ok orders)
    (h : loadCSV (header :: dls) = Except.ok book) :
    List.Perm (book.bids ++ book.asks) orders ∧
    (∀ o ∈ book.bids, o.side = Side.BID) ∧
    (∀ o ∈ book.asks, o.side = Side.ASK) := by
  simp only [loadCSV] at h
  rw [hp] at h
  dsimp only at h
  by_cases hbe : (bidsOf orders).isEmpty
  · rw [if_pos hbe] at h; cases h
  · rw [if_neg hbe] at h
    by_cases hae : (asksOf orders).isEmpty
    · rw [if_pos hae] at h; cases h
    · rw [if_neg hae] at h
      by_cases hcross :
          ((((bidsOf orders).insertionSort bidLE).headD defaultOrder).price
            ≥ (((asksOf orders).insertionSort askLE).headD defaultOrder).price)
      · rw [if_pos hcross] at h; cases h
      · rw [if_neg hcross] at h
        cases h
        refine ⟨?_, ?_, ?_⟩
        · have hpb := List.perm_insertionSort bidLE (bidsOf orders)
          have hpa := List.perm_insertionSort askLE (asksOf orders)
          have hfp : List.Perm (bidsOf orders ++ asksOf orders) orders := by
            have hfa := List.filter_append_perm (fun o => o.side == Side.BID) orders
            simpa [bidsOf, asksOf] using hfa
          exact (hpb.append hpa).trans hfp
        · intro o ho
          have h1 := (List.mem_insertionSort bidLE).mp ho
          have h2 := List.mem_filter.mp h1
          simpa using h2.2
        · intro o ho
          have h1 := (List.mem_insertionSort askLE).mp ho
          have h2 := List.mem_filter.mp h1
          have h3 : ¬(o.side = Side.BID) := by simpa using h2.2
          cases hs : o.side
          · exact absurd hs h3
          · rfl

theorem loadCSV_preserves_orders_witness :
    List.Perm ([(⟨Side.BID, 100, 10⟩ : Order)] ++ [⟨Side.ASK, 101, 8⟩])
      [⟨Side.BID, 100, 10⟩, ⟨Side.ASK, 101, 8⟩] ∧
    (∀ o ∈ [(⟨Side.BID, 100, 10⟩ : Order)], o.side = Side.BID) := by
  have hrow1 : parseRow ("bid,100.0,10".toList) 2 = Except.ok ⟨Side.BID, 100, 10⟩ := by
    simp [parseRow, parseFields, splitOnComma, trim, parseSide, parseDouble,
      parseFiniteQ, decMant, scalePow, decExpFrom, digitsVal, isDigitChar,
      isStodSpace, isWsChar, lowerChar, String.toList]
    norm_num
  have hrow2 : parseRow ("ask,101.0,8".toList) 3 = Except.ok ⟨Side.ASK, 101, 8⟩ := by
    simp [parseRow, parseFields, splitOnComma, trim, parseSide, parseDouble,
      parseFiniteQ, decMant, scalePow, decExpFrom, digitsVal, isDigitChar,
      isStodSpace, isWsChar, lowerChar, String.toList]
    norm_num
  have hp : parseLines [("bid,100.0,10".toList), ("ask,101.0,8".toList)] 2
      = Except.ok [⟨Side.BID, 100, 10⟩, ⟨Side.ASK, 101, 8⟩] :=
    parseLines_cons_ok _ _ _ _ _ (by decide) hrow1
      (parseLines_cons_ok _ _ _ _ _ (by decide) hrow2 (parseLines_nil 4))
  have hload : loadCSV
      [("side,price,size".toList), ("bid,100.0,10".toList), ("ask,101.0,8".toList)]
      = Except.ok ⟨[⟨Side.BID, 100, 10⟩], [⟨Side.ASK, 101, 8⟩]⟩ := by
    simp only [loadCSV]
    rw [hp]
    decide
  have hmain := loadCSV_preserves_orders ("side,price,size".toList)
    [("bid,100.0,10".toList), ("ask,101.0,8".toList)]
    [⟨Side.BID, 100, 10⟩, ⟨Side.ASK, 101, 8⟩]
    ⟨[⟨Side.BID, 100, 10⟩], [⟨Side.ASK, 101, 8⟩]⟩ hp hload
  exact ⟨hmain.1, hmain.2.1⟩

/-- C4: on a validly loaded book, `calcStats` produces exactly the spec's
fields — best bid/ask are the heads of the two sides, mid price their
average, spread and spread percentage as stated, the two depths over the
band `mid*(1 - pct/100) .. mid*(1 + pct/100)`, and the two sweep results —
and if either sweep fails the whole analysis fails with that error,
producing no Stats. -/
theorem calcStats_fields (book : Orderbook) (depthPct targetQty : ℚ)
    (b0 a0 : Order) (bt at2 : List Order)
    (hb : book.bids = b0 :: bt) (ha : book.asks = a0 :: at2) :
    (∀ vb vs, calcVWAPBuy book.asks targetQty = Except.ok vb →
      calcVWAPSell book.bids targetQty = Except.ok vs →
      calcStats book depthPct targetQty = Except.ok
        ⟨b0.price, a0.price, (b0.price + a0.price) / 2, a0.price - b0.price,
         (a0.price - b0.price) / ((b0.price + a0.price) / 2) * 100,
         calcDepth book.bids ((b0.price + a0.price) / 2 * (1 - depthPct / 100))
           ((b0.price + a0.price) / 2 * (1 + depthPct / 100)),
         calcDepth book.asks ((b0.price + a0.price) / 2 * (1 - depthPct / 100))
           ((b0.price + a0.price) / 2 * (1 + depthPct / 100)),
         vb, vs⟩) ∧
    (∀ e, calcVWAPBuy book.asks targetQty = Except.error e →
      calcStats book depthPct targetQty = Except.error e) ∧
    (∀ vb e, calcVWAPBuy book.asks targetQty = Except.ok vb →
      calcVWAPSell book.bids targetQty = Except.error e →
      calcStats book depthPct targetQty = Except.error e) := by
  refine ⟨?_, ?_, ?_⟩
  · intro vb vs hvb hvs
    simp only [calcStats]
    rw [hvb]
    dsimp only
    rw [hvs]
    dsimp only
    simp only [hb, ha, List.headD_cons]
  · intro e he
    simp only [calcStats]
    rw [he]
  · intro vb e hvb he
    simp only [calcStats]
    rw [hvb]
    dsimp only
    rw [he]

theorem calcStats_fields_witness :
    calcStats ⟨[⟨Side.BID, 100, 10⟩, ⟨Side.BID, 99, 5⟩],
        [⟨Side.ASK, 101, 8⟩, ⟨Side.ASK, 102, 10⟩]⟩ 1 10
      = Except.ok
        ⟨100, 101, (100 + 101) / 2, 101 - 100, (101 - 100) / ((100 + 101) / 2) * 100,
         calcDepth [⟨Side.BID, 100, 10⟩, ⟨Side.BID, 99, 5⟩]
           ((100 + 101) / 2 * (1 - 1 / 100)) ((100 + 101) / 2 * (1 + 1 / 100)),
         calcDepth [⟨Side.ASK, 101, 8⟩, ⟨Side.ASK, 102, 10⟩]
           ((100 + 101) / 2 * (1 - 1 / 100)) ((100 + 101) / 2 * (1 + 1 / 100)),
         506 / 5, 100⟩ := by
  have h := (calcStats_fields
    ⟨[⟨Side.BID, 100, 10⟩, ⟨Side.BID, 99, 5⟩], [⟨Side.ASK, 101, 8⟩, ⟨Side.ASK, 102, 10⟩]⟩
    1 10 ⟨Side.BID, 100, 10⟩ ⟨Side.ASK, 101, 8⟩ [⟨Side.BID, 99, 5⟩] [⟨Side.ASK, 102, 10⟩]
    rfl rfl).1
  exact h (506 / 5) 100 (by norm_num [calcVWAPBuy, sweep, min_def])
    (by norm_num [calcVWAPSell, sweep, min_def])

lemma parseDouble_cases (raw fieldName : List Char) :
    (badNumber raw = true →
      parseDouble raw fieldName = Except.error (BookError.InvalidNumber fieldName)) ∧
    (badNumber raw = false → ∃ v, parseDouble raw fieldName = Except.ok v) := by
  cases hq : parseFiniteQ raw with
  | none => simp [badNumber, parseDouble, hq]
  | some v =>
    by_cases hv : v ≤ 0
    · constructor
      · intro _
        simp [parseDouble, hq, hv]
      · intro hc
        simp [badNumber, hq, hv] at hc
    · constructor
      · intro hc
        simp [badNumber, hq, hv] at hc
      · intro _
        exact ⟨v, by simp [parseDouble, hq, hv]⟩

/-- C7: when all three fields are non-blank and the side token is valid,
the row parser fails with `InvalidNumber` exactly on a bad price or size
field — not parseable as a finite number, or nonpositive: a bad price
reports `InvalidNumber("price")`, a good price with a bad size reports
`InvalidNumber("size")`, and two good fields parse successfully; the row
"bid,-1.0,5" fails with `InvalidNumber("price")`. -/
theorem parseRow_invalid_number (line : List Char) (n : ℕ) (side : Side)
    (hs : trim ((splitOnComma line).getD 0 []) ≠ [])
    (hpf : trim ((splitOnComma line).getD 1 []) ≠ [])
    (hzf : trim ((splitOnComma line).getD 2 []) ≠ [])
    (hside : parseSide (trim ((splitOnComma line).getD 0 [])) = Except.ok side) :
    (badNumber (trim ((splitOnComma line).getD 1 [])) = true →
      parseRow line n = Except.error (BookError.InvalidNumber ("price".toList))) ∧
    (badNumber (trim ((splitOnComma line).getD 1 [])) = false →
      badNumber (trim ((splitOnComma line).getD 2 [])) = true →
      parseRow line n = Except.error (BookError.InvalidNumber ("size".toList))) ∧
    (badNumber (trim ((splitOnComma line).getD 1 [])) = false →
      badNumber (trim ((splitOnComma line).getD 2 [])) = false →
      ∃ o, parseRow line n = Except.ok o) ∧
    parseRow ("bid,-1.0,5".toList) 2
      = Except.error (BookError.InvalidNumber ("price".toList)) := by
  have hcond : ¬(trim ((splitOnComma line).getD 0 []) = [] ∨
      trim ((splitOnComma line).getD 1 []) = [] ∨
      trim ((splitOnComma line).getD 2 []) = []) := by
    intro hor
    rcases hor with h0 | h1 | h2
    exacts [hs h0, hpf h1, hzf h2]
  have hpc := parseDouble_cases (trim ((splitOnComma line).getD 1 [])) ("price".toList)
  have hzc := parseDouble_cases (trim ((splitOnComma line).getD 2 [])) ("size".toList)
  have hrow : parseRow line n =
      (match parseDouble (trim ((splitOnComma line).getD 1 [])) ("price".toList) with
       | Except.error e => Except.error e
       | Except.ok price =>
         match parseDouble (trim ((splitOnComma line).getD 2 [])) ("size".toList) with
         | Except.error e => Except.error e
         | Except.ok size => Except.ok ⟨side, price, size⟩) := by
    simp only [parseRow, parseFields]
    rw [if_neg hcond, hside]
  refine ⟨?_, ?_, ?_, ?_⟩
  · intro hb1
    rw [hrow, hpc.1 hb1]
  · intro hg1 hb2
    obtain ⟨v, hv⟩ := hpc.2 hg1
    rw [hrow, hv]
    dsimp only
    rw [hzc.1 hb2]
  · intro hg1 hg2
    obtain ⟨v, hv⟩ := hpc.2 hg1
    obtain ⟨w, hw⟩ := hzc.2 hg2
    refine ⟨⟨side, v, w⟩, ?_⟩
    rw [hrow, hv]
    dsimp only
    rw [hw]
  · simp [parseRow, parseFields, splitOnComma, trim, parseSide, parseDouble, parseFiniteQ,
      decMant, scalePow, decExpFrom, digitsVal, isDigitChar, isStodSpace, isWsChar,
      lowerChar, String.toList]

theorem parseRow_invalid_number_witness :
    parseRow ("bid,-1.0,5".toList) 4
      = Except.error (BookError.InvalidNumber ("price".toList)) := by
  have hb : badNumber (trim ((splitOnComma ("bid,-1.0,5".toList)).getD 1 [])) = true := by
    simp [badNumber, splitOnComma, trim, parseFiniteQ, decMant, scalePow, decExpFrom,
      digitsVal, isDigitChar, isStodSpace, isWsChar, String.toList]
  exact (parseRow_invalid_number ("bid,-1.0,5".toList) 4 Side.BID
    (by decide) (by decide) (by decide) (by decide)).1 hb

/-- C8: a row with any of its three comma-split fields blank after trimming
fails with `MalformedRow(lineNumber)`, before side matching or numeric
parsing is attempted; in particular the row ",100.0,5" fails with
`MalformedRow`, not `InvalidSide` or `InvalidNumber`. -/
theorem parseRow_malformed (line : List Char) (n : ℕ)
    (h : trim ((splitOnComma line).getD 0 []) = [] ∨
      trim ((splitOnComma line).getD 1 []) = [] ∨
      trim ((splitOnComma line).getD 2 []) = []) :
    parseRow line n = Except.error (BookError.MalformedRow n) ∧
    parseRow (",100.0,5".toList) 7 = Except.error (BookError.MalformedRow 7) := by
  constructor
  · simp only [parseRow, parseFields]
    rw [if_pos h]
  · decide

theorem parseRow_malformed_witness :
    parseRow (",100.0,5".toList) 9 = Except.error (BookError.MalformedRow 9) :=
  (parseRow_malformed (",100.0,5".toList) 9 (by decide)).1

lemma splitOnComma_no_comma (a : List Char) (h : ',' ∉ a) : splitOnComma a = [a] := by
  induction a with
  | nil => rfl
  | cons c rest ih =>
    have hc : ¬(c = ',') := fun he => h (he ▸ List.mem_cons_self c rest)
    have hr : ',' ∉ rest := fun hm => h (List.mem_cons_of_mem c hm)
    rw [splitOnComma, if_neg hc, ih hr]

lemma splitOnComma_append (a r : List Char) (h : ',' ∉ a) :
    splitOnComma (a ++ ',' :: r) = a :: splitOnComma r := by
  induction a with
  | nil =>
    simp only [List.nil_append]
    rw [splitOnComma, if_pos rfl]
  | cons c rest ih =>
    have hc : ¬(c = ',') := fun he => h (he ▸ List.mem_cons_self c rest)
    have hr : ',' ∉ rest := fun hm => h (List.mem_cons_of_mem c hm)
    simp only [List.cons_append]
    rw [splitOnComma, if_neg hc, ih hr]

/-- C10: fields beyond the third are silently ignored: a line made of three
comma-free fields followed by a comma and anything at all parses exactly as
the line with only the three fields; in particular "bid,100.0,5,garbage"
parses to a bid at price 100 and size 5. -/
theorem parseRow_ignores_extra (a b c d : List Char) (n : ℕ)
    (ha : ',' ∉ a) (hb : ',' ∉ b) (hc : ',' ∉ c) :
    parseRow (a ++ ',' :: (b ++ ',' :: (c ++ ',' :: d))) n
        = parseRow (a ++ ',' :: (b ++ ',' :: c)) n ∧
    parseRow ("bid,100.0,5,garbage".toList) 3 = Except.ok ⟨Side.BID, 100, 5⟩ := by
  constructor
  · rw [parseRow, parseRow, splitOnComma_append a _ ha, splitOnComma_append b _ hb,
      splitOnComma_append c _ hc, splitOnComma_append a _ ha, splitOnComma_append b _ hb,
      splitOnComma_no_comma c hc]
    exact rfl
  · simp [parseRow, parseFields, splitOnComma, trim, parseSide, parseDouble, parseFiniteQ,
      decMant, scalePow, decExpFrom, digitsVal, isDigitChar, isStodSpace, isWsChar,
      lowerChar, String.toList]
    norm_num

theorem parseRow_ignores_extra_witness :
    parseRow (("bid".toList) ++ ',' :: (("100.0".toList) ++ ',' ::
        (("5".toList) ++ ',' :: ("garbage".toList)))) 3
      = parseRow (("bid".toList) ++ ',' :: (("100.0".toList) ++ ',' :: ("5".toList))) 3 :=
  (parseRow_ignores_extra ("bid".toList) ("100.0".toList) ("5".toList) ("garbage".toList) 3
    (by decide) (by decide) (by decide)).1

theorem calcDepth_monotone_witness :
    calcDepth [⟨Side.BID, 99, 5⟩, ⟨Side.BID, 95, 7⟩] 98 100
      ≤ calcDepth [⟨Side.BID, 99, 5⟩, ⟨Side.BID, 95, 7⟩] 94 100 :=
  calcDepth_monotone [⟨Side.BID, 99, 5⟩, ⟨Side.BID, 95, 7⟩] 98 100 94 100
    (by decide) (by decide) (by decide)

end OBA
